import Mathlib

/-!
Verification of the synthetic audio generation and WAV container encoding
logic of `src/lib/browser-tts.ts` (class `BrowserTTS`).

The JavaScript code is shallowly embedded:
* strings are `List Char` (a JS string is a sequence of code units; all the
  relevant characters are in the ASCII range where code units and code
  points agree),
* JS `number` arithmetic is modelled exactly: durations and sample counts
  with `ℚ`, waveform samples with `ℝ` (`Math.sin` is `Real.sin`),
* the `ArrayBuffer` produced by `audioBufferToWav` is a `List ℕ` of bytes.
-/

namespace BrowserTTS

/-- JS regex `\s` on the ASCII range: space, tab, line feed, vertical tab,
form feed, carriage return.  (JS also accepts some exotic Unicode spaces,
which play no role here; the embedding fixes this ASCII set.) -/
def isWs (c : Char) : Bool :=
  c.toNat = 32 || c.toNat = 9 || c.toNat = 10 || c.toNat = 11 ||
    c.toNat = 12 || c.toNat = 13

/-- JS `String.prototype.toLowerCase` on the ASCII range: `A`-`Z` (codes
65-90) map to `a`-`z` (codes 97-122); everything else is unchanged. -/
def jsToLower (c : Char) : Char :=
  if 65 ≤ c.toNat ∧ c.toNat ≤ 90 then Char.ofNat (c.toNat + 32) else c

/-- JS `String.prototype.includes`: does `pat` occur contiguously in `l`? -/
def jsIncludes (l pat : List Char) : Bool :=
  match l with
  | [] => pat.isEmpty
  | _ :: tl => pat.isPrefixOf l || jsIncludes tl pat

/-- State machine for JS `split(/\s+/)`: `some acc` means we are inside a
token whose characters so far are `acc` (reversed); `none` means the last
consumed character was whitespace (a separator has just been closed).
JS yields a trailing empty token when the string ends with whitespace, and
a leading empty token when it starts with whitespace. -/
def jsSplitWsAux : List Char → Option (List Char) → List (List Char)
  | [], none => [[]]
  | [], some acc => [acc.reverse]
  | c :: cs, none =>
      if isWs c then jsSplitWsAux cs none else jsSplitWsAux cs (some [c])
  | c :: cs, some acc =>
      if isWs c then acc.reverse :: jsSplitWsAux cs none
      else jsSplitWsAux cs (some (c :: acc))

/-- JS `str.split(/\s+/)` (note: `"".split(/\s+/)` is `[""]`). -/
def jsSplitWs (l : List Char) : List (List Char) :=
  jsSplitWsAux l (some [])

/-- JS `String.prototype.trim`: strip leading and trailing whitespace. -/
def jsTrim (l : List Char) : List Char :=
  ((l.dropWhile isWs).reverse.dropWhile isWs).reverse

/-- `const wordCount = text.trim().split(/\s+/).length` (line 142). -/
def wordCount (text : List Char) : ℕ :=
  (jsSplitWs (jsTrim text)).length

/-- `const durationSeconds = Math.max(2, (wordCount / wordsPerMinute) * 60)`
with `wordsPerMinute = 150` (lines 141-143). -/
def durationSeconds (text : List Char) : ℚ :=
  max 2 ((wordCount text : ℚ) / 150 * 60)

/-- `const samples = Math.floor(durationSeconds * sampleRate)` (line 144). -/
def numSamples (text : List Char) (sampleRate : ℕ) : ℕ :=
  (⌊durationSeconds text * (sampleRate : ℚ)⌋).toNat

/-- `const frequency = voiceName.toLowerCase().includes('male') ? 120 : 200`
(line 151). -/
def frequency (voiceName : List Char) : ℕ :=
  if jsIncludes (voiceName.map jsToLower) "male".data then 120 else 200

/-- `const words = text.toLowerCase().split(/\s+/)` (line 152). -/
def words (text : List Char) : List (List Char) :=
  jsSplitWs (text.map jsToLower)

/-- `const t = i / sampleRate` (line 155). -/
noncomputable def tAt (sampleRate i : ℕ) : ℝ :=
  (i : ℝ) / (sampleRate : ℝ)

/-- `const progress = t / durationSeconds` (line 156). -/
noncomputable def progressAt (text : List Char) (sampleRate i : ℕ) : ℝ :=
  tAt sampleRate i / ((durationSeconds text : ℚ) : ℝ)

/-- `const wordIndex = Math.floor(progress * words.length)` (line 157). -/
noncomputable def wordIndexAt (text : List Char) (sampleRate i : ℕ) : ℤ :=
  ⌊progressAt text sampleRate i * ((words text).length : ℝ)⌋

/-- `const currentWord = words[wordIndex] || ''` (line 158): out-of-range
indexing yields `undefined`, and `undefined || ''` as well as `'' || ''`
yield `''`. -/
noncomputable def currentWordAt (text : List Char) (sampleRate i : ℕ) :
    List Char :=
  if wordIndexAt text sampleRate i < 0 then []
  else (words text).getD (wordIndexAt text sampleRate i).toNat []

/-- JS `x || d` for a numeric `x` that may be `NaN` (modelled as `none`):
both `NaN` and `0` are falsy and fall through to the default. -/
def jsFalsyOr (x : Option ℕ) (d : ℕ) : ℕ :=
  match x with
  | none => d
  | some v => if v = 0 then d else v

/-- JS `w.charCodeAt(0)`: `NaN` (i.e. `none`) on the empty string. -/
def charCodeAt0 (w : List Char) : Option ℕ :=
  w.head?.map Char.toNat

/-- `const charCode = currentWord.charCodeAt(0) || 65` (line 162). -/
def charCodeOf (w : List Char) : ℕ :=
  jsFalsyOr (charCodeAt0 w) 65

/-- Lines 154-172: the sample value written to `channelData[i]`. -/
noncomputable def sampleAt (text voiceName : List Char) (sampleRate i : ℕ) :
    ℝ :=
  let t := tAt sampleRate i
  let progress := progressAt text sampleRate i
  let currentWord := currentWordAt text sampleRate i
  let wordFreq : ℝ := (frequency voiceName : ℝ) + (currentWord.length : ℝ) * 5
  let charCode : ℕ := charCodeOf currentWord
  let modulation := Real.sin (t * Real.pi * 0.5 + (charCode : ℝ)) * 0.3
  let fundamental := Real.sin (2 * Real.pi * wordFreq * t)
  let formant1 := Real.sin (2 * Real.pi * wordFreq * 2.5 * t) * 0.3
  let formant2 := Real.sin (2 * Real.pi * wordFreq * 3.5 * t) * 0.2
  let envelope := Real.sin (Real.pi * progress) * 0.8
  (fundamental + formant1 + formant2 + modulation) * envelope * 0.2

/-- The mono channel data filled by `createSyntheticAudio` (lines 147-175);
this is the spec's `synthesizeWaveform(text, voiceId, sampleRate)`. -/
noncomputable def synthesizeWaveform (text voiceName : List Char)
    (sampleRate : ℕ) : List ℝ :=
  (List.range (numSamples text sampleRate)).map (sampleAt text voiceName sampleRate)

/-- The `AudioBuffer` handed to `audioBufferToWav`. -/
structure JsAudioBuffer where
  numberOfChannels : ℕ
  sampleRate : ℕ
  length : ℕ
  getChannelData : ℕ → List ℝ

/-- `Math.max(-1, Math.min(1, x))` (line 220). -/
noncomputable def jsClamp (x : ℝ) : ℝ :=
  max (-1) (min 1 x)

/-- JS `ToIntegerOrInfinity`, the integer conversion `DataView.setInt16`
applies to its (finite) float argument: truncation toward zero. -/
noncomputable def jsTruncate (x : ℝ) : ℤ :=
  if 0 ≤ x then ⌊x⌋ else ⌈x⌉

/-- The 16-bit value computed for one sample on line 220-221:
`view.setInt16(offset, Math.max(-1, Math.min(1, s)) * 0x7FFF, true)`. -/
noncomputable def quantizeSample (s : ℝ) : ℤ :=
  jsTruncate (jsClamp s * 32767)

/-- Two little-endian bytes of a 16-bit value. -/
def le16 (n : ℕ) : List ℕ :=
  [n % 256, n / 256 % 256]

/-- Four little-endian bytes of a 32-bit value (as `DataView.setUint32`
stores it: the value is reduced modulo 2^32). -/
def le32 (n : ℕ) : List ℕ :=
  [n % 256, n / 256 % 256, n / 65536 % 256, n / 16777216 % 256]

/-- `setInt16` byte pair: the two's-complement 16-bit representation,
little-endian. -/
noncomputable def int16LEBytes (z : ℤ) : List ℕ :=
  le16 (z.emod 65536).toNat

/-- `writeString` (lines 196-200): one byte per character via `setUint8`
(which reduces modulo 256). -/
def asciiBytes (s : String) : List ℕ :=
  s.data.map (fun c => c.toNat % 256)

/-- The 44 header bytes written by lines 202-214. -/
def wavHeader (buffer : JsAudioBuffer) : List ℕ :=
  asciiBytes "RIFF" ++
  le32 (36 + buffer.length * buffer.numberOfChannels * 2) ++
  asciiBytes "WAVE" ++
  asciiBytes "fmt " ++
  le32 16 ++
  le16 1 ++
  le16 buffer.numberOfChannels ++
  le32 buffer.sampleRate ++
  le32 (buffer.sampleRate * buffer.numberOfChannels * 2) ++
  le16 (buffer.numberOfChannels * 2) ++
  le16 16 ++
  asciiBytes "data" ++
  le32 (buffer.length * buffer.numberOfChannels * 2)

/-- The PCM payload written by lines 216-224: for each frame, for each
channel, the clamped and quantized sample as two little-endian bytes. -/
noncomputable def wavData (buffer : JsAudioBuffer) : List ℕ :=
  (List.range buffer.length).flatMap fun i =>
    (List.range buffer.numberOfChannels).flatMap fun channel =>
      int16LEBytes (quantizeSample ((buffer.getChannelData channel).getD i 0))

/-- `audioBufferToWav` (lines 188-227). -/
noncomputable def audioBufferToWav (buffer : JsAudioBuffer) : List ℕ :=
  wavHeader buffer ++ wavData buffer

/-- `createSyntheticAudio` (lines 133-186): build the mono buffer at the
given sample rate, fill it with the synthetic waveform, encode as WAV. -/
noncomputable def createSyntheticAudio (text voiceName : List Char)
    (sampleRate : ℕ) : List ℕ :=
  audioBufferToWav
    { numberOfChannels := 1
      sampleRate := sampleRate
      length := numSamples text sampleRate
      getChannelData := fun channel =>
        if channel = 0 then synthesizeWaveform text voiceName sampleRate else [] }

/-- `generateSpeech` (lines 26-51): when `this.synth` is `null` the promise
is rejected with `Error('Speech synthesis not supported')` before anything
else happens; otherwise `captureAudio` resolves with the synthetic audio
blob for `utterance.voice?.name || 'default'` (the real speech output is a
fire-and-forget side effect with no influence on the returned bytes). -/
noncomputable def generateSpeech (synthAvailable : Bool)
    (resolvedVoiceName : Option (List Char)) (text : List Char)
    (sampleRate : ℕ) : Except (List Char) (List ℕ) :=
  if synthAvailable then
    .ok (createSyntheticAudio text (resolvedVoiceName.getD "default".data) sampleRate)
  else
    .error "Speech synthesis not supported".data

/-! Spec-side definitions:

The following definitions are written from the specification's words (not
from the source); the claim theorems compare them with the code-side
definitions above. -/

/-- Number of maximal runs of non-whitespace characters: the spec's
"count of whitespace-delimited tokens".  The Boolean argument records
whether we are currently inside a token. -/
def tokenCountAux : List Char → Bool → ℕ
  | [], _ => 0
  | c :: cs, inTok =>
      if isWs c then tokenCountAux cs false
      else (if inTok then 0 else 1) + tokenCountAux cs true

/-- Spec 4.1: "`wordCount` = count of whitespace-delimited tokens in
trimmed text (minimum 1)". -/
def specWordCount (text : List Char) : ℕ :=
  max 1 (tokenCountAux (jsTrim text) false)

/-- Spec 8 / claim C3: `floor(max(2.0, wordCount(t)/150*60) * r)`. -/
def specSampleCount (text : List Char) (r : ℕ) : ℕ :=
  (⌊max 2 ((specWordCount text : ℚ) / 150 * 60) * (r : ℚ)⌋).toNat

/-- Claim C6's reading of "voiceId contains the substring `male`
case-insensitively": some contiguous substring of `v` lowercases to
`male`. -/
def specContainsMaleCI (v : List Char) : Prop :=
  ∃ w : List Char, w <:+: v ∧ w.map jsToLower = "male".data

/-- Read an unsigned 16-bit little-endian value at the head of a byte
list. -/
def readLE16At : List ℕ → ℕ
  | b0 :: b1 :: _ => b0 + 256 * b1
  | _ => 0

/-- Read an unsigned 32-bit little-endian value at the head of a byte
list. -/
def readLE32At : List ℕ → ℕ
  | b0 :: b1 :: b2 :: b3 :: _ => b0 + 256 * b1 + 65536 * b2 + 16777216 * b3
  | _ => 0

/-- Spec 8 round-trip: decode (sampleRate, channelCount, bitsPerSample,
dataBytes) from a WAV header (offsets 24, 22, 34 and 40 of the spec's
table). -/
def decodeHeader (bytes : List ℕ) : ℕ × ℕ × ℕ × ℕ :=
  (readLE32At (bytes.drop 24), readLE16At (bytes.drop 22),
    readLE16At (bytes.drop 34), readLE32At (bytes.drop 40))

/-- Decode a signed 16-bit little-endian value at the head of a byte
list (two's complement). -/
def decodeInt16At : List ℕ → ℤ
  | b0 :: b1 :: _ =>
      let u := b0 % 256 + 256 * (b1 % 256)
      if u < 32768 then (u : ℤ) else (u : ℤ) - 65536
  | _ => 0

/-- The spec's header table (claim C4), field by field. -/
def specWavHeader (buffer : JsAudioBuffer) : List ℕ :=
  "RIFF".data.map Char.toNat ++
  le32 (36 + buffer.length * buffer.numberOfChannels * 2) ++
  "WAVE".data.map Char.toNat ++
  "fmt ".data.map Char.toNat ++
  le32 16 ++
  le16 1 ++
  le16 buffer.numberOfChannels ++
  le32 buffer.sampleRate ++
  le32 (buffer.sampleRate * buffer.numberOfChannels * 2) ++
  le16 (buffer.numberOfChannels * 2) ++
  le16 16 ++
  "data".data.map Char.toNat ++
  le32 (buffer.length * buffer.numberOfChannels * 2)

/-- Claim C2 as stated: quantize a sample by clamping to `[-1, 1]` and
taking `round(clamped * 32767)`. -/
noncomputable def specQuantizeRound (s : ℝ) : ℤ :=
  round (jsClamp s * 32767)

/-- The amended claim C2: quantize a sample by clamping to `[-1, 1]` and
truncating `clamped * 32767` toward zero (the integer conversion JS
`DataView.setInt16` performs). -/
noncomputable def specQuantizeTrunc (s : ℝ) : ℤ :=
  jsTruncate (jsClamp s * 32767)

/-- Claim C5's charCode rule as stated: "the character code of the first
character of currentWord, or 65 if it is empty". -/
def specCharCodeC5 (w : List Char) : ℕ :=
  match w.head? with
  | none => 65
  | some c => c.toNat

/-- The amended charCode rule: 65 also when the first character is NUL
(code 0), because JS `charCodeAt(0) || 65` treats the falsy value `0` like
`NaN`. -/
def specCharCodeC5Fixed (w : List Char) : ℕ :=
  match w.head? with
  | none => 65
  | some c => if c.toNat = 0 then 65 else c.toNat

/-- Claim C5's sample formula, parameterised by the charCode rule
(`cc`): `(sin(2π wordFreq t) + 0.3 sin(2π wordFreq 2.5 t)
+ 0.2 sin(2π wordFreq 3.5 t) + 0.3 sin(t π 0.5 + charCode))
* (0.8 sin(π progress)) * 0.2` with `t = i/sampleRate`,
`progress = t/durationSeconds`, `wordFreq = baseFrequency
+ 5·length(currentWord)`, `currentWord` the word at index
`floor(progress * words.length)` of the lowercased whitespace-split
text. -/
noncomputable def specSampleWith (cc : List Char → ℕ)
    (text voiceName : List Char) (sampleRate i : ℕ) : ℝ :=
  let t := tAt sampleRate i
  let progress := progressAt text sampleRate i
  let currentWord := currentWordAt text sampleRate i
  let wordFreq : ℝ := (frequency voiceName : ℝ) + 5 * (currentWord.length : ℝ)
  let charCode : ℕ := cc currentWord
  (Real.sin (2 * Real.pi * wordFreq * t) +
      0.3 * Real.sin (2 * Real.pi * wordFreq * 2.5 * t) +
      0.2 * Real.sin (2 * Real.pi * wordFreq * 3.5 * t) +
      0.3 * Real.sin (t * Real.pi * 0.5 + (charCode : ℝ))) *
    (0.8 * Real.sin (Real.pi * progress)) * 0.2

/-- Claim C5's formula as stated. -/
noncomputable def specSampleC5 (text voiceName : List Char)
    (sampleRate i : ℕ) : ℝ :=
  specSampleWith specCharCodeC5 text voiceName sampleRate i

/-- The amended claim C5 formula. -/
noncomputable def specSampleC5Fixed (text voiceName : List Char)
    (sampleRate i : ℕ) : ℝ :=
  specSampleWith specCharCodeC5Fixed text voiceName sampleRate i

/-- Does the text start with a whitespace character? -/
def startsWithWs (l : List Char) : Bool :=
  match l.head? with
  | some c => isWs c
  | none => false

/-- Does the text end with a whitespace character? -/
def endsWithWs (l : List Char) : Bool :=
  match l.getLast? with
  | some c => isWs c
  | none => false

/-! Helper lemmas. -/

theorem abs_sin_le_one' (x : ℝ) : |Real.sin x| ≤ 1 :=
  abs_le.mpr ⟨Real.neg_one_le_sin x, Real.sin_le_one x⟩

theorem sampleShape_abs_le (a b c d e : ℝ) (ha : |a| ≤ 1) (hb : |b| ≤ 1)
    (hc : |c| ≤ 1) (hd : |d| ≤ 1) (he : |e| ≤ 1) :
    |(a + b * 0.3 + c * 0.2 + d * 0.3) * (e * 0.8) * 0.2| ≤ 0.288 := by
  have h1 : |a + b * 0.3 + c * 0.2 + d * 0.3| ≤ 1.8 := by
    have t1 : |a + b * 0.3 + c * 0.2 + d * 0.3| ≤
        |a + b * 0.3 + c * 0.2| + |d * 0.3| := abs_add _ _
    have t2 : |a + b * 0.3 + c * 0.2| ≤ |a + b * 0.3| + |c * 0.2| := abs_add _ _
    have t3 : |a + b * 0.3| ≤ |a| + |b * 0.3| := abs_add _ _
    have u1 : |b * 0.3| ≤ 0.3 := by
      rw [abs_mul, show |(0.3 : ℝ)| = 0.3 by norm_num]
      linarith
    have u2 : |c * 0.2| ≤ 0.2 := by
      rw [abs_mul, show |(0.2 : ℝ)| = 0.2 by norm_num]
      linarith
    have u3 : |d * 0.3| ≤ 0.3 := by
      rw [abs_mul, show |(0.3 : ℝ)| = 0.3 by norm_num]
      linarith
    linarith
  have h2 : |e * 0.8| ≤ 0.8 := by
    rw [abs_mul, show |(0.8 : ℝ)| = 0.8 by norm_num]
    linarith
  have h3 : |(a + b * 0.3 + c * 0.2 + d * 0.3) * (e * 0.8) * 0.2| =
      |a + b * 0.3 + c * 0.2 + d * 0.3| * |e * 0.8| * |(0.2 : ℝ)| := by
    rw [abs_mul, abs_mul]
  rw [h3]
  have h4 : |(0.2 : ℝ)| = 0.2 := by norm_num
  rw [h4]
  nlinarith [abs_nonneg (a + b * 0.3 + c * 0.2 + d * 0.3), abs_nonneg (e * 0.8)]

theorem jsClamp_of_mem_Icc {x : ℝ} (h1 : -1 ≤ x) (h2 : x ≤ 1) :
    jsClamp x = x := by
  unfold jsClamp
  rw [min_eq_right h2, max_eq_right h1]

theorem length_flatMap_const {α β : Type} (l : List α) (f : α → List β)
    (k : ℕ) (h : ∀ a ∈ l, (f a).length = k) :
    (l.flatMap f).length = l.length * k := by
  induction l with
  | nil => simp
  | cons a tl ih =>
      rw [List.flatMap_cons, List.length_append, h a (by simp),
        ih (fun x hx => h x (by simp [hx]))]
      simp [List.length_cons]
      ring

theorem getD_flatMap_const {α β : Type} (d : β) (a₀ : α) (k : ℕ) :
    ∀ (l : List α) (f : α → List β), (∀ a ∈ l, (f a).length = k) →
      ∀ m j, m < l.length → j < k →
        (l.flatMap f).getD (m * k + j) d = (f (l.getD m a₀)).getD j d := by
  intro l
  induction l with
  | nil => intro f _ m j hm _; simp at hm
  | cons a tl ih =>
      intro f h m j hm hj
      rw [List.flatMap_cons]
      match m with
      | 0 =>
          rw [List.getD_append _ _ _ _ (by rw [h a (by simp)]; omega)]
          simp
      | m' + 1 =>
          rw [List.getD_append_right _ _ _ _
            (by rw [h a (by simp)]; have := Nat.add_mul m' 1 k; omega)]
          rw [h a (by simp)]
          have harith : (m' + 1) * k + j - k = m' * k + j := by
            have := Nat.add_mul m' 1 k
            omega
          rw [harith, ih f (fun x hx => h x (by simp [hx])) m' j
            (by simpa using hm) hj]
          simp

theorem wavHeader_length (buffer : JsAudioBuffer) :
    (wavHeader buffer).length = 44 := rfl

theorem int16LEBytes_length (z : ℤ) : (int16LEBytes z).length = 2 := rfl

theorem wavData_length (buffer : JsAudioBuffer) :
    (wavData buffer).length =
      buffer.length * buffer.numberOfChannels * 2 := by
  rw [wavData, length_flatMap_const _ _ (buffer.numberOfChannels * 2)]
  · simp [mul_assoc]
  · intro a _
    rw [length_flatMap_const _ _ 2]
    · simp
    · intro x _
      exact int16LEBytes_length _

theorem audioBufferToWav_length (buffer : JsAudioBuffer) :
    (audioBufferToWav buffer).length =
      44 + buffer.length * buffer.numberOfChannels * 2 := by
  rw [audioBufferToWav, List.length_append, wavHeader_length,
    wavData_length]

theorem head?_dropWhile_false {p : Char → Bool} {l : List Char} {c : Char}
    (h : (l.dropWhile p).head? = some c) : p c = false := by
  have hm := List.head?_dropWhile_not p l
  rw [h] at hm
  exact hm

theorem getLast?_dropWhile_of_ne_nil (p : Char → Bool) (l : List Char)
    (h : l.dropWhile p ≠ []) : (l.dropWhile p).getLast? = l.getLast? := by
  induction l with
  | nil => simp [List.dropWhile] at h
  | cons a t ih =>
      by_cases hpa : p a = true
      · rw [List.dropWhile_cons, if_pos hpa] at h ⊢
        cases t with
        | nil => simp [List.dropWhile] at h
        | cons b t' => rw [ih h, List.getLast?_cons_cons]
      · rw [List.dropWhile_cons, if_neg hpa] at h ⊢

theorem jsTrim_head_not_ws {l : List Char} {c : Char}
    (h : (jsTrim l).head? = some c) : isWs c = false := by
  rw [jsTrim, List.head?_reverse] at h
  by_cases hnil : (l.dropWhile isWs).reverse.dropWhile isWs = []
  · rw [hnil] at h
    simp at h
  · rw [getLast?_dropWhile_of_ne_nil isWs _ hnil, List.getLast?_reverse] at h
    exact head?_dropWhile_false h

theorem jsTrim_getLast_not_ws {l : List Char} {c : Char}
    (h : (jsTrim l).getLast? = some c) : isWs c = false := by
  rw [jsTrim, List.getLast?_reverse] at h
  exact head?_dropWhile_false h

theorem jsTrim_endsWithWs (l : List Char) : endsWithWs (jsTrim l) = false := by
  rw [endsWithWs]
  cases hu : (jsTrim l).getLast? with
  | none => rfl
  | some c => exact jsTrim_getLast_not_ws hu

theorem splitAux_ne_nil (l : List Char) (st : Option (List Char)) :
    jsSplitWsAux l st ≠ [] := by
  induction l generalizing st with
  | nil => cases st <;> simp [jsSplitWsAux]
  | cons c cs ih =>
      cases st with
      | none =>
          rw [jsSplitWsAux]
          split
          · exact ih none
          · exact ih (some [c])
      | some acc =>
          rw [jsSplitWsAux]
          split
          · simp
          · exact ih (some (c :: acc))

theorem endsWithWs_cons_of_ne_nil {c : Char} {cs : List Char} (h : cs ≠ []) :
    endsWithWs (c :: cs) = endsWithWs cs := by
  cases cs with
  | nil => exact absurd rfl h
  | cons b t => rw [endsWithWs, endsWithWs, List.getLast?_cons_cons]

theorem splitAux_length (l : List Char) (hend : endsWithWs l = false) :
    (∀ acc, (jsSplitWsAux l (some acc)).length = tokenCountAux l true + 1) ∧
      (l ≠ [] → (jsSplitWsAux l none).length = tokenCountAux l false) := by
  induction l with
  | nil => exact ⟨fun acc => rfl, fun h => absurd rfl h⟩
  | cons c cs ih =>
      by_cases hcs : cs = []
      · subst hcs
        have hc : isWs c = false := by
          rw [endsWithWs] at hend
          simpa using hend
        exact ⟨fun acc => by simp [jsSplitWsAux, hc, tokenCountAux],
          fun _ => by simp [jsSplitWsAux, hc, tokenCountAux]⟩
      · have hend' : endsWithWs cs = false := by
          rw [endsWithWs_cons_of_ne_nil hcs] at hend
          exact hend
        obtain ⟨ih1, ih2⟩ := ih hend'
        constructor
        · intro acc
          by_cases hw : isWs c = true
          · rw [jsSplitWsAux, if_pos hw]
            rw [List.length_cons, ih2 hcs, tokenCountAux, if_pos hw]
          · rw [jsSplitWsAux, if_neg hw, ih1 (c :: acc), tokenCountAux,
              if_neg hw, if_pos rfl]
            omega
        · intro _
          by_cases hw : isWs c = true
          · rw [jsSplitWsAux, if_pos hw, ih2 hcs, tokenCountAux, if_pos hw]
          · rw [jsSplitWsAux, if_neg hw, ih1 [c], tokenCountAux, if_neg hw,
              if_neg (by simp)]
            omega

theorem wordCount_eq_specWordCount (text : List Char) :
    wordCount text = specWordCount text := by
  rw [wordCount, specWordCount, jsSplitWs]
  cases hu : jsTrim text with
  | nil => rfl
  | cons c cs =>
      have hhead : isWs c = false :=
        jsTrim_head_not_ws (by rw [hu]; rfl)
      have hend : endsWithWs (c :: cs) = false := by
        rw [← hu]
        exact jsTrim_endsWithWs text
      rw [(splitAux_length (c :: cs) hend).1 []]
      simp only [tokenCountAux, hhead]
      simp
      omega

theorem splitAux_tokens_ne_nil (l : List Char) (hend : endsWithWs l = false) :
    (∀ acc, (acc ≠ [] ∨ (∃ c cs, l = c :: cs ∧ isWs c = false)) →
        ∀ w ∈ jsSplitWsAux l (some acc), w ≠ []) ∧
      (l ≠ [] → ∀ w ∈ jsSplitWsAux l none, w ≠ []) := by
  induction l with
  | nil =>
      refine ⟨fun acc hacc w hw => ?_, fun h => absurd rfl h⟩
      rcases hacc with hacc | ⟨c, cs, hccs, _⟩
      · simp [jsSplitWsAux] at hw
        subst hw
        simpa using hacc
      · exact absurd hccs (by simp)
  | cons c cs ih =>
      by_cases hcs : cs = []
      · subst hcs
        have hc : isWs c = false := by
          rw [endsWithWs] at hend
          simpa using hend
        constructor
        · intro acc _ w hw
          simp [jsSplitWsAux, hc] at hw
          subst hw
          simp
        · intro _ w hw
          simp [jsSplitWsAux, hc] at hw
          subst hw
          simp
      · have hend' : endsWithWs cs = false := by
          rw [endsWithWs_cons_of_ne_nil hcs] at hend
          exact hend
        obtain ⟨ih1, ih2⟩ := ih hend'
        constructor
        · intro acc hacc w hw
          by_cases hw' : isWs c = true
          · have hacc' : acc ≠ [] := by
              rcases hacc with h | ⟨c', cs', hc', hnws⟩
              · exact h
              · rw [List.cons.injEq] at hc'
                rw [← hc'.1] at hnws
                rw [hnws] at hw'
                exact absurd hw' (by simp)
            rw [jsSplitWsAux, if_pos hw'] at hw
            rcases List.mem_cons.mp hw with hw | hw
            · subst hw
              simpa using hacc'
            · exact ih2 hcs w hw
          · rw [jsSplitWsAux, if_neg hw'] at hw
            exact ih1 (c :: acc) (Or.inl (by simp)) w hw
        · intro _ w hw
          by_cases hw' : isWs c = true
          · rw [jsSplitWsAux, if_pos hw'] at hw
            exact ih2 hcs w hw
          · rw [jsSplitWsAux, if_neg hw'] at hw
            exact ih1 [c] (Or.inl (by simp)) w hw

theorem jsToLower_isWs (c : Char) : isWs (jsToLower c) = isWs c := by
  rw [jsToLower]
  split
  · rename_i hc
    have hval : (Char.ofNat (c.toNat + 32)).toNat = c.toNat + 32 := by
      rw [Char.ofNat, dif_pos (by
        rw [Nat.isValidChar]
        left
        omega)]
      rfl
    rw [isWs, isWs, hval]
    have h1 : c.toNat ≠ 32 ∧ c.toNat ≠ 9 ∧ c.toNat ≠ 10 ∧ c.toNat ≠ 11 ∧
        c.toNat ≠ 12 ∧ c.toNat ≠ 13 := by omega
    have h2 : c.toNat + 32 ≠ 32 ∧ c.toNat + 32 ≠ 9 ∧ c.toNat + 32 ≠ 10 ∧
        c.toNat + 32 ≠ 11 ∧ c.toNat + 32 ≠ 12 ∧ c.toNat + 32 ≠ 13 := by omega
    simp [h1.1, h1.2.1, h1.2.2.1, h1.2.2.2.1, h1.2.2.2.2.1, h1.2.2.2.2.2,
      h2.1, h2.2.1, h2.2.2.1, h2.2.2.2.1, h2.2.2.2.2.1, h2.2.2.2.2.2]
  · rfl

theorem jsIncludes_iff (l pat : List Char) :
    jsIncludes l pat = true ↔ pat <:+: l := by
  induction l with
  | nil =>
      rw [jsIncludes, List.isEmpty_iff, List.infix_nil]
  | cons a t ih =>
      rw [jsIncludes, Bool.or_eq_true, ih, List.isPrefixOf_iff_prefix,
        List.infix_cons_iff]

theorem infix_map_iff (f : Char → Char) (v pat : List Char) :
    pat <:+: v.map f ↔ ∃ w, w <:+: v ∧ w.map f = pat := by
  constructor
  · rintro ⟨s, t, hst⟩
    refine ⟨(v.drop s.length).take pat.length,
      ⟨v.take s.length, (v.drop s.length).drop pat.length, ?_⟩, ?_⟩
    · rw [List.append_assoc, List.take_append_drop, List.take_append_drop]
    · rw [List.map_take, List.map_drop, ← hst, List.append_assoc,
        List.drop_left, List.take_left]
  · rintro ⟨w, ⟨s, t, hst⟩, hmap⟩
    exact ⟨s.map f, t.map f, by
      rw [← hmap, ← List.map_append, ← List.map_append, hst]⟩

theorem charCodeOf_eq_fixed (w : List Char) :
    charCodeOf w = specCharCodeC5Fixed w := by
  cases w <;> rfl

theorem pi_ne_ratCast (q : ℚ) : Real.pi ≠ (q : ℝ) :=
  fun h => irrational_pi ⟨q, h.symm⟩

theorem startsWithWs_map_jsToLower (text : List Char) :
    startsWithWs (text.map jsToLower) = startsWithWs text := by
  rw [startsWithWs, startsWithWs, List.head?_map]
  cases text.head? with
  | none => rfl
  | some c => simp [jsToLower_isWs]

theorem endsWithWs_map_jsToLower (text : List Char) :
    endsWithWs (text.map jsToLower) = endsWithWs text := by
  rw [endsWithWs, endsWithWs, List.getLast?_map]
  cases text.getLast? with
  | none => rfl
  | some c => simp [jsToLower_isWs]

/-! Claim theorems. -/

/-- Claim C1 (code_bug): the spec's test vector says
`baseFrequency("voice-female-x") == 200`, but the code computes
`voiceName.toLowerCase().includes('male')`, and `"female"` contains
`"male"` as a substring, so the code yields 120 for `"voice-female-x"`.
The other two vector entries hold. -/
theorem claim1_baseFrequency_eval :
    frequency "voice-male-x".data = 120 ∧
      frequency "voice-female-x".data = 120 ∧
      frequency "unknown-id".data = 200 := by
  decide

/-- Claim C8: every synthesized sample is bounded in magnitude by
`(1 + 0.3 + 0.2 + 0.3) * 0.8 * 0.2 = 0.288`, hence lies in `[-1, 1]`, and
the encoder's defensive clamp leaves it unchanged. -/
theorem claim8_sample_bounded (text voiceName : List Char) (sampleRate i : ℕ) :
    |sampleAt text voiceName sampleRate i| ≤ 0.288 ∧
      (-1 ≤ sampleAt text voiceName sampleRate i ∧
        sampleAt text voiceName sampleRate i ≤ 1) ∧
      jsClamp (sampleAt text voiceName sampleRate i) =
        sampleAt text voiceName sampleRate i := by
  have habs : |sampleAt text voiceName sampleRate i| ≤ 0.288 := by
    rw [sampleAt]
    exact sampleShape_abs_le _ _ _ _ _ (abs_sin_le_one' _) (abs_sin_le_one' _)
      (abs_sin_le_one' _) (abs_sin_le_one' _) (abs_sin_le_one' _)
  have hle := abs_le.mp habs
  refine ⟨habs, ⟨by linarith [hle.1], by linarith [hle.2]⟩, ?_⟩
  exact jsClamp_of_mem_Icc (by linarith [hle.1]) (by linarith [hle.2])

/-- Claim C7: for any float sample fed to the encoder, the 16-bit PCM value
it writes is an integer in `[-32767, 32767]`, and decoding the two stored
little-endian bytes as a signed 16-bit integer recovers exactly that value
(no overflow/wrap-around). -/
theorem claim7_no_overflow (s : ℝ) :
    (-32767 ≤ quantizeSample s ∧ quantizeSample s ≤ 32767) ∧
      decodeInt16At (int16LEBytes (quantizeSample s)) = quantizeSample s := by
  have hc1 : -1 ≤ jsClamp s := le_max_left _ _
  have hc2 : jsClamp s ≤ 1 := max_le (by norm_num) (min_le_left _ _)
  have hx1 : (-32767 : ℝ) ≤ jsClamp s * 32767 := by nlinarith
  have hx2 : jsClamp s * 32767 ≤ 32767 := by nlinarith
  have hbound : -32767 ≤ quantizeSample s ∧ quantizeSample s ≤ 32767 := by
    rw [quantizeSample, jsTruncate]
    split
    · constructor
      · have h0 : (0 : ℤ) ≤ ⌊jsClamp s * 32767⌋ := by
          apply Int.floor_nonneg.mpr
          assumption
        omega
      · have h1 : (⌊jsClamp s * 32767⌋ : ℝ) ≤ 32767 :=
          le_trans (Int.floor_le _) hx2
        exact_mod_cast h1
    · rename_i hneg
      push_neg at hneg
      constructor
      · have h1 : (-32767 : ℝ) ≤ (⌈jsClamp s * 32767⌉ : ℝ) :=
          le_trans hx1 (Int.le_ceil _)
        exact_mod_cast h1
      · have h0 : ⌈jsClamp s * 32767⌉ ≤ 0 := by
          apply Int.ceil_le.mpr
          push_cast
          linarith
        omega
  refine ⟨hbound, ?_⟩
  rw [int16LEBytes, le16]
  set z := quantizeSample s with hzdef
  have hz0 : (0 : ℤ) ≤ z.emod 65536 := Int.emod_nonneg z (by norm_num)
  have hz1 : z.emod 65536 < 65536 := Int.emod_lt_of_pos z (by norm_num)
  have hu : ((z.emod 65536).toNat : ℤ) = z.emod 65536 := Int.toNat_of_nonneg hz0
  set u : ℕ := (z.emod 65536).toNat with hudef
  have hu2 : u < 65536 := by omega
  show decodeInt16At [u % 256, u / 256 % 256] = z
  rw [decodeInt16At]
  have hv : u % 256 % 256 + 256 * (u / 256 % 256 % 256) = u := by omega
  simp only [hv]
  obtain ⟨hb1, hb2⟩ := hbound
  have h65 : z.emod 65536 = z % 65536 := rfl
  rw [h65] at hu
  split <;> omega

set_option maxHeartbeats 4000000 in
/-- Claim C4: the encoder output is exactly `44 + N*C*2` bytes, the 44-byte
header is byte-exact per the spec's table, and decoding the header recovers
(sampleRate, channelCount, bitDepth 16, dataBytes); moreover the
"Hello world" at 8000 Hz mono example produces exactly 32044 bytes. -/
theorem claim4_container_layout :
    (∀ buffer : JsAudioBuffer,
      buffer.sampleRate < 4294967296 →
      buffer.numberOfChannels < 65536 →
      36 + buffer.length * buffer.numberOfChannels * 2 < 4294967296 →
      (audioBufferToWav buffer).length =
          44 + buffer.length * buffer.numberOfChannels * 2 ∧
        (audioBufferToWav buffer).take 44 = specWavHeader buffer ∧
        decodeHeader (audioBufferToWav buffer) =
          (buffer.sampleRate, buffer.numberOfChannels, 16,
            buffer.length * buffer.numberOfChannels * 2)) ∧
      (createSyntheticAudio "Hello world".data
        "voice-female-professional-1".data 8000).length = 32044 := by
  constructor
  · intro buffer hRate hChan hData
    refine ⟨audioBufferToWav_length buffer, ?_, ?_⟩
    · rw [audioBufferToWav, ← wavHeader_length buffer, List.take_left,
        wavHeader, specWavHeader]
      simp only [show asciiBytes "RIFF" = "RIFF".data.map Char.toNat from by decide,
        show asciiBytes "WAVE" = "WAVE".data.map Char.toNat from by decide,
        show asciiBytes "fmt " = "fmt ".data.map Char.toNat from by decide,
        show asciiBytes "data" = "data".data.map Char.toNat from by decide]
    · have hdec : decodeHeader (audioBufferToWav buffer) =
          (buffer.sampleRate % 256 + 256 * (buffer.sampleRate / 256 % 256) +
              65536 * (buffer.sampleRate / 65536 % 256) +
              16777216 * (buffer.sampleRate / 16777216 % 256),
            buffer.numberOfChannels % 256 +
              256 * (buffer.numberOfChannels / 256 % 256),
            16,
            buffer.length * buffer.numberOfChannels * 2 % 256 +
              256 * (buffer.length * buffer.numberOfChannels * 2 / 256 % 256) +
              65536 * (buffer.length * buffer.numberOfChannels * 2 / 65536 % 256) +
              16777216 *
                (buffer.length * buffer.numberOfChannels * 2 / 16777216 % 256)) :=
        rfl
      rw [hdec]
      simp only [Prod.mk.injEq]
      exact ⟨by omega, by omega, trivial, by omega⟩
  · rw [createSyntheticAudio, audioBufferToWav_length]
    have hN : numSamples "Hello world".data 8000 = 16000 := by
      have h : wordCount "Hello world".data = 2 := by decide
      rw [numSamples, durationSeconds, h]
      norm_num
      rfl
    simp only [hN]

/-- Claim C4 witness: instantiation at a concrete zero-length mono buffer
at 8000 Hz. -/
theorem claim4_container_layout_witness :
    (audioBufferToWav (JsAudioBuffer.mk 1 8000 0 fun _ => [])).length =
        44 + 0 * 1 * 2 ∧
      (audioBufferToWav (JsAudioBuffer.mk 1 8000 0 fun _ => [])).take 44 =
        specWavHeader (JsAudioBuffer.mk 1 8000 0 fun _ => []) ∧
      decodeHeader (audioBufferToWav (JsAudioBuffer.mk 1 8000 0 fun _ => [])) =
        (8000, 1, 16, 0 * 1 * 2) :=
  claim4_container_layout.1 (JsAudioBuffer.mk 1 8000 0 fun _ => [])
    (by decide) (by decide) (by decide)

/-- Claim C2 (amended): the encoder produces the PCM payload byte pair for
frame `i`, channel `c` by clamping the float sample to `[-1, 1]` and
quantizing it by truncation toward zero of `clamped * 32767` (the integer
conversion of JS `DataView.setInt16`), stored as a signed 16-bit
little-endian integer at byte offset `44 + (i*channelCount + c)*2`. -/
theorem claim2_payload_bytes (buffer : JsAudioBuffer) (i c b : ℕ)
    (hi : i < buffer.length) (hc : c < buffer.numberOfChannels) (hb : b < 2) :
    (audioBufferToWav buffer).getD
        (44 + (i * buffer.numberOfChannels + c) * 2 + b) 0 =
      (int16LEBytes (specQuantizeTrunc
        ((buffer.getChannelData c).getD i 0))).getD b 0 := by
  rw [audioBufferToWav,
    List.getD_append_right _ _ _ _
      (by rw [wavHeader_length]; omega),
    wavHeader_length]
  have hidx : 44 + (i * buffer.numberOfChannels + c) * 2 + b - 44 =
      i * (buffer.numberOfChannels * 2) + (c * 2 + b) := by
    have := Nat.add_mul (i * buffer.numberOfChannels) c 2
    have := Nat.mul_assoc i buffer.numberOfChannels 2
    omega
  rw [hidx, wavData]
  rw [getD_flatMap_const 0 0 (buffer.numberOfChannels * 2) _ _
    (fun a _ => by
      rw [length_flatMap_const _ _ 2 (fun x _ => int16LEBytes_length _)]
      simp)
    i (c * 2 + b) (by simpa using hi) (by omega)]
  have hrange : (List.range buffer.length).getD i 0 = i := by
    rw [List.getD_eq_getElem _ _ (by simpa using hi)]
    exact List.getElem_range _ _
  rw [hrange]
  rw [show c * 2 + b = c * 2 + b from rfl,
    getD_flatMap_const 0 0 2 _ _ (fun x _ => int16LEBytes_length _)
      c b (by simpa using hc) hb]
  have hrange2 : (List.range buffer.numberOfChannels).getD c 0 = c := by
    rw [List.getD_eq_getElem _ _ (by simpa using hc)]
    exact List.getElem_range _ _
  rw [hrange2]
  rfl

/-- Claim C2 witness: instantiation at a concrete one-sample mono buffer. -/
theorem claim2_payload_bytes_witness :
    (audioBufferToWav (JsAudioBuffer.mk 1 8000 1 fun _ => [(1 : ℝ) / 2])).getD
        (44 + (0 * 1 + 0) * 2 + 0) 0 =
      (int16LEBytes (specQuantizeTrunc
        (((JsAudioBuffer.mk 1 8000 1 fun _ => [(1 : ℝ) / 2]).getChannelData 0).getD
          0 0))).getD 0 0 :=
  claim2_payload_bytes (JsAudioBuffer.mk 1 8000 1 fun _ => [(1 : ℝ) / 2])
    0 0 0 (by decide) (by decide) (by decide)

/-- Claim C2 counterexample: for the one-sample buffer holding `0.5`, the
byte the encoder stores at offset 44 is `255` (truncation: the 16-bit value
is `16383 = 0x3FFF`), whereas the claim's `round(clamped * 32767)` rule
gives `16384 = 0x4000`, whose low byte is `0`. -/
theorem claim2_counterexample :
    (audioBufferToWav (JsAudioBuffer.mk 1 8000 1 fun _ => [(1 : ℝ) / 2])).getD
        44 0 ≠
      (int16LEBytes (specQuantizeRound
        (((JsAudioBuffer.mk 1 8000 1 fun _ => [(1 : ℝ) / 2]).getChannelData 0).getD
          0 0))).getD 0 0 := by
  have hcl : jsClamp ((1 : ℝ) / 2) = 1 / 2 := by
    rw [jsClamp, min_eq_right (by norm_num), max_eq_right (by norm_num)]
  have hq : quantizeSample ((1 : ℝ) / 2) = 16383 := by
    rw [quantizeSample, hcl, jsTruncate, if_pos (by norm_num)]
    norm_num
  have hlhs : (audioBufferToWav
      (JsAudioBuffer.mk 1 8000 1 fun _ => [(1 : ℝ) / 2])).getD 44 0 = 255 := by
    rw [audioBufferToWav,
      List.getD_append_right _ _ _ _ (by rw [wavHeader_length]),
      wavHeader_length]
    have h1 : List.range 1 = [0] := rfl
    simp only [Nat.sub_self, wavData, h1, List.flatMap_cons,
      List.flatMap_nil, List.append_nil]
    have hsamp : ([(1 : ℝ) / 2].getD 0 0) = (1 : ℝ) / 2 := rfl
    rw [hsamp, hq]
    decide
  have hrhs : (int16LEBytes (specQuantizeRound
      (((JsAudioBuffer.mk 1 8000 1 fun _ => [(1 : ℝ) / 2]).getChannelData 0).getD
        0 0))).getD 0 0 = 0 := by
    have hsamp : ((JsAudioBuffer.mk 1 8000 1 fun _ =>
        [(1 : ℝ) / 2]).getChannelData 0).getD 0 0 = (1 : ℝ) / 2 := rfl
    rw [hsamp]
    have hr : specQuantizeRound ((1 : ℝ) / 2) = 16384 := by
      rw [specQuantizeRound, hcl, round_eq]
      norm_num
    rw [hr]
    decide
  rw [hlhs, hrhs]
  decide

/-- Claim C9 counterexample: with the speech-synthesis handle absent,
`generateSpeech` does NOT produce the synthetic audio asset — the promise
is rejected before synthetic generation starts. -/
theorem claim9_counterexample :
    ¬ ∃ bytes, generateSpeech false none "hi".data 44100 = Except.ok bytes := by
  rintro ⟨b, hb⟩
  rw [generateSpeech] at hb
  simp at hb

/-- Claim C9 amended: when the speech-synthesis handle is absent,
`generateSpeech` fails with `Error('Speech synthesis not supported')`
instead of producing the synthetic asset; the synthetic generator itself
(`createSyntheticAudio`) is a pure function of (text, voiceName,
sampleRate) with no platform dependency, but it is only reached when the
handle is present. -/
theorem claim9_unsupported_rejects (resolvedVoiceName : Option (List Char))
    (text : List Char) (sampleRate : ℕ) :
    generateSpeech false resolvedVoiceName text sampleRate =
        Except.error "Speech synthesis not supported".data ∧
      generateSpeech true resolvedVoiceName text sampleRate =
        Except.ok (createSyntheticAudio text
          (resolvedVoiceName.getD "default".data) sampleRate) := by
  constructor <;> rfl

/-- Claim C3: for every text (including empty or whitespace-only), every
voiceId and every positive sample rate `r`, the synthesized buffer has
exactly `floor(max(2.0, wordCount/150*60) * r)` samples, where `wordCount`
counts whitespace-delimited tokens of the trimmed text with a minimum
of 1; single-word text always yields exactly `2*r` samples. -/
theorem claim3_waveform_length (text voiceName : List Char) (r : ℕ)
    (hr : 0 < r) :
    (synthesizeWaveform text voiceName r).length = specSampleCount text r ∧
      (specWordCount text = 1 →
        (synthesizeWaveform text voiceName r).length = 2 * r) := by
  have hlen : (synthesizeWaveform text voiceName r).length =
      numSamples text r := by
    rw [synthesizeWaveform, List.length_map, List.length_range]
  have heq : numSamples text r = specSampleCount text r := by
    rw [numSamples, specSampleCount, durationSeconds,
      wordCount_eq_specWordCount]
  refine ⟨by rw [hlen, heq], fun h1 => ?_⟩
  rw [hlen, heq, specSampleCount, h1]
  rw [show max (2 : ℚ) (((1 : ℕ) : ℚ) / 150 * 60) = 2 by norm_num,
    show (2 : ℚ) * (r : ℚ) = ((2 * r : ℕ) : ℚ) by push_cast; ring,
    Int.floor_natCast, Int.toNat_natCast]

/-- Claim C3 witness: the text `"hi"` at rate 3 — a single-token text, so
it yields `2*3 = 6` samples. -/
theorem claim3_waveform_length_witness :
    (synthesizeWaveform "hi".data "v".data 3).length =
        specSampleCount "hi".data 3 ∧
      (synthesizeWaveform "hi".data "v".data 3).length = 2 * 3 :=
  ⟨(claim3_waveform_length "hi".data "v".data 3 (by decide)).1,
    (claim3_waveform_length "hi".data "v".data 3 (by decide)).2 (by decide)⟩

/-- Claim C6: the synthesizer's base frequency is 120 Hz exactly when the
voice identifier contains the substring `male` case-insensitively, and
200 Hz otherwise. -/
theorem claim6_base_frequency_rule (v : List Char) :
    (frequency v = 120 ↔ specContainsMaleCI v) ∧
      (frequency v = 200 ↔ ¬ specContainsMaleCI v) := by
  have hbridge : jsIncludes (v.map jsToLower) "male".data = true ↔
      specContainsMaleCI v := by
    rw [jsIncludes_iff, infix_map_iff]
    exact Iff.rfl
  rw [frequency]
  by_cases h : jsIncludes (v.map jsToLower) "male".data = true
  · rw [if_pos h]
    have hci := hbridge.mp h
    exact ⟨⟨fun _ => hci, fun _ => rfl⟩,
      ⟨fun h120 => absurd h120 (by decide), fun hn => absurd hci hn⟩⟩
  · rw [if_neg h]
    have hnci : ¬ specContainsMaleCI v := fun hci => h (hbridge.mpr hci)
    exact ⟨⟨fun h200 => absurd h200 (by decide), fun hci => absurd hci hnci⟩,
      ⟨fun _ => hnci, fun _ => rfl⟩⟩

/-- Claim C10 (amended): for every in-range sample index the word index
`floor(progress * words.length)` lies in `[0, words.length)`, so the word
lookup is always within bounds and the `|| ''` fallback on out-of-range
indexing is unreachable; an empty `currentWord` can arise only from an
empty token of the whitespace-split, i.e. only when the text is empty or
starts or ends with whitespace. -/
theorem claim10_word_index_in_range (text : List Char) (r i : ℕ)
    (hr : 0 < r) (hi : i < numSamples text r) :
    (0 ≤ wordIndexAt text r i ∧
        (wordIndexAt text r i).toNat < (words text).length) ∧
      currentWordAt text r i =
        (words text).getD (wordIndexAt text r i).toNat [] ∧
      (currentWordAt text r i = [] →
        text = [] ∨ startsWithWs text = true ∨ endsWithWs text = true) := by
  have hW : 0 < (words text).length := by
    rw [words, jsSplitWs]
    exact List.length_pos.mpr (splitAux_ne_nil _ _)
  have hd2 : (2 : ℚ) ≤ durationSeconds text := le_max_left _ _
  have hd0 : (0 : ℚ) < durationSeconds text :=
    lt_of_lt_of_le (by norm_num) hd2
  have hiq : (i : ℚ) < durationSeconds text * r := by
    have h1 : (i : ℤ) < ⌊durationSeconds text * (r : ℚ)⌋ := by
      rw [numSamples] at hi
      omega
    have h2 : ((⌊durationSeconds text * (r : ℚ)⌋ : ℤ) : ℚ) ≤
        durationSeconds text * r := Int.floor_le _
    calc (i : ℚ) < ((⌊durationSeconds text * (r : ℚ)⌋ : ℤ) : ℚ) := by
          exact_mod_cast h1
      _ ≤ durationSeconds text * r := h2
  have hprog_nonneg : 0 ≤ progressAt text r i := by
    rw [progressAt, tAt]
    apply div_nonneg
    · exact div_nonneg (Nat.cast_nonneg i) (Nat.cast_nonneg r)
    · exact_mod_cast le_of_lt hd0
  have hprog_lt : progressAt text r i < 1 := by
    rw [progressAt, tAt, div_div]
    have hpos : (0 : ℝ) < (r : ℝ) * ((durationSeconds text : ℚ) : ℝ) := by
      apply mul_pos
      · exact_mod_cast hr
      · exact_mod_cast hd0
    rw [div_lt_one hpos]
    have hiq' : (i : ℝ) < ((durationSeconds text : ℚ) : ℝ) * (r : ℝ) := by
      exact_mod_cast hiq
    linarith
  have h0 : 0 ≤ wordIndexAt text r i := by
    rw [wordIndexAt]
    exact Int.floor_nonneg.mpr
      (mul_nonneg hprog_nonneg (Nat.cast_nonneg _))
  have hlt : wordIndexAt text r i < ((words text).length : ℤ) := by
    rw [wordIndexAt]
    apply Int.floor_lt.mpr
    have hWr : (0 : ℝ) < ((words text).length : ℝ) := by exact_mod_cast hW
    push_cast
    calc progressAt text r i * ((words text).length : ℝ) <
          1 * ((words text).length : ℝ) :=
        mul_lt_mul_of_pos_right hprog_lt hWr
      _ = ((words text).length : ℝ) := one_mul _
  have htoNat : (wordIndexAt text r i).toNat < (words text).length := by
    omega
  have hcw : currentWordAt text r i =
      (words text).getD (wordIndexAt text r i).toNat [] := by
    rw [currentWordAt, if_neg (not_lt.mpr h0)]
  refine ⟨⟨h0, htoNat⟩, hcw, ?_⟩
  intro hempty
  by_contra hcon
  push_neg at hcon
  obtain ⟨htx, hsw, hew⟩ := hcon
  have hsw' : startsWithWs text = false := by simpa using hsw
  have hew' : endsWithWs text = false := by simpa using hew
  have hlnil : text.map jsToLower ≠ [] := by
    rw [Ne, List.map_eq_nil_iff]
    exact htx
  have hendl : endsWithWs (text.map jsToLower) = false := by
    rw [endsWithWs_map_jsToLower]
    exact hew'
  have hmem : currentWordAt text r i ∈ words text := by
    rw [hcw, List.getD_eq_getElem _ _ htoNat]
    exact List.getElem_mem _
  rw [words, jsSplitWs] at hmem
  have hdisj : ∃ c cs, text.map jsToLower = c :: cs ∧ isWs c = false := by
    cases hl2 : text.map jsToLower with
    | nil => exact absurd hl2 hlnil
    | cons c cs =>
        refine ⟨c, cs, rfl, ?_⟩
        have hs : startsWithWs (text.map jsToLower) = false := by
          rw [startsWithWs_map_jsToLower]
          exact hsw'
        rw [hl2] at hs
        exact hs
  have := (splitAux_tokens_ne_nil (text.map jsToLower) hendl).1 []
    (Or.inr hdisj) (currentWordAt text r i) hmem
  exact this hempty

/-- Claim C10 witness: single-letter text at rate 1, sample index 0. -/
theorem claim10_word_index_in_range_witness :
    (0 ≤ wordIndexAt "a".data 1 0 ∧
        (wordIndexAt "a".data 1 0).toNat < (words "a".data).length) ∧
      currentWordAt "a".data 1 0 =
        (words "a".data).getD (wordIndexAt "a".data 1 0).toNat [] ∧
      (currentWordAt "a".data 1 0 = [] →
        "a".data = [] ∨ startsWithWs "a".data = true ∨
          endsWithWs "a".data = true) :=
  claim10_word_index_in_range "a".data 1 0 (by decide)
    (by
      rw [numSamples, durationSeconds,
        show wordCount "a".data = 1 from by decide]
      norm_num)

/-- Claim C10 counterexample: for the empty text at rate 1 the in-range
sample index 0 already has an empty `currentWord` (because
`"".split(/\s+/)` is `[""]`), even though the empty text neither starts
nor ends with whitespace — refuting the claim's assertion that an empty
`currentWord` can arise only from text with leading or trailing
whitespace. -/
theorem claim10_counterexample :
    0 < numSamples [] 1 ∧ currentWordAt [] 1 0 = [] ∧
      startsWithWs [] = false ∧ endsWithWs [] = false := by
  refine ⟨?_, ?_, rfl, rfl⟩
  · rw [numSamples, durationSeconds, show wordCount [] = 1 from by decide]
    norm_num
  · have hwi : wordIndexAt [] 1 0 = 0 := by
      rw [wordIndexAt, progressAt, tAt]
      norm_num
    rw [currentWordAt, hwi]
    norm_num
    rfl

/-- Claim C5 (amended): the synthesized sample satisfies the claimed
formula, with the charCode rule amended to also fall back to 65 when the
first character of `currentWord` is NUL (code 0), because JS
`charCodeAt(0) || 65` treats the falsy value `0` like `NaN`. -/
theorem claim5_sample_formula (text voiceName : List Char) (r i : ℕ) :
    sampleAt text voiceName r i = specSampleC5Fixed text voiceName r i := by
  simp only [sampleAt, specSampleC5Fixed, specSampleWith, charCodeOf_eq_fixed]
  rw [show (frequency voiceName : ℝ) +
      ((currentWordAt text r i).length : ℝ) * 5 =
      (frequency voiceName : ℝ) + 5 * ((currentWordAt text r i).length : ℝ)
    from by ring]
  ring

/-- Claim C5 counterexample: for the one-character text `"\x00"` (NUL),
voice `"v"`, sample rate 2 and sample index 1, the code's sample differs
from the claimed formula: the code uses charCode 65 (`0 || 65` is 65),
the claim's rule gives charCode 0, and
`sin(π/4 + 65) ≠ sin(π/4 + 0)` since π is irrational. -/
theorem claim5_counterexample :
    sampleAt ['\x00'] ['v'] 2 1 ≠ specSampleC5 ['\x00'] ['v'] 2 1 := by
  have hd : durationSeconds ['\x00'] = 2 := by
    rw [durationSeconds, show wordCount ['\x00'] = 1 from by decide]
    norm_num
  have ht : tAt 2 1 = 1 / 2 := by rw [tAt]; norm_num
  have hp : progressAt ['\x00'] 2 1 = 1 / 4 := by
    rw [progressAt, ht, hd]; norm_num
  have hwords : words ['\x00'] = [['\x00']] := by decide
  have hwi : wordIndexAt ['\x00'] 2 1 = 0 := by
    rw [wordIndexAt, hp, hwords]; norm_num
  have hcw : currentWordAt ['\x00'] 2 1 = ['\x00'] := by
    rw [currentWordAt, hwi]
    simp [hwords]
  have hfreq : frequency ['v'] = 200 := by decide
  have hcc : charCodeOf ['\x00'] = 65 := by decide
  have hsc : specCharCodeC5 ['\x00'] = 0 := by decide
  intro heq
  simp only [sampleAt, specSampleC5, specSampleWith] at heq
  rw [ht, hp, hcw, hfreq, hcc, hsc] at heq
  push_cast at heq
  ring_nf at heq
  have hkey : (Real.sin (65 + Real.pi * (1 / 4)) -
      Real.sin (Real.pi * (1 / 4))) * Real.sin (Real.pi * (1 / 4)) *
      (6 / 125) = 0 := by
    linear_combination heq
  have hs4 : Real.sin (Real.pi * (1 / 4)) ≠ 0 := by
    apply ne_of_gt
    apply Real.sin_pos_of_pos_of_lt_pi
    · linarith [Real.pi_pos]
    · linarith [Real.pi_pos]
  have hdiffne : Real.sin (65 + Real.pi * (1 / 4)) -
      Real.sin (Real.pi * (1 / 4)) ≠ 0 := by
    rw [Real.sin_sub_sin,
      show (65 + Real.pi * (1 / 4) - Real.pi * (1 / 4)) / 2 = (65 / 2 : ℝ)
        from by ring,
      show (65 + Real.pi * (1 / 4) + Real.pi * (1 / 4)) / 2 =
        65 / 2 + Real.pi * (1 / 4) from by ring]
    have hsin652 : Real.sin (65 / 2) ≠ 0 := by
      intro h
      obtain ⟨n, hn⟩ := Real.sin_eq_zero_iff.mp h
      have hn0 : n ≠ 0 := by
        intro h0
        rw [h0] at hn
        norm_num at hn
      have hnr : ((n : ℤ) : ℝ) ≠ 0 := Int.cast_ne_zero.mpr hn0
      apply pi_ne_ratCast (65 / (2 * (n : ℚ)))
      have hq : ((65 / (2 * (n : ℚ)) : ℚ) : ℝ) = 65 / (2 * (n : ℝ)) := by
        push_cast
        ring
      rw [hq]
      field_simp
      linear_combination 2 * hn
    have hcos : Real.cos (65 / 2 + Real.pi * (1 / 4)) ≠ 0 := by
      intro h
      obtain ⟨k, hk⟩ := Real.cos_eq_zero_iff.mp h
      have hk0 : (4 * k + 1 : ℤ) ≠ 0 := by omega
      have hkr : ((4 * k + 1 : ℤ) : ℝ) ≠ 0 := Int.cast_ne_zero.mpr hk0
      apply pi_ne_ratCast (130 / (4 * (k : ℚ) + 1))
      have hq : ((130 / (4 * (k : ℚ) + 1) : ℚ) : ℝ) =
          130 / (4 * (k : ℝ) + 1) := by
        push_cast
        ring
      rw [hq]
      have hkr' : (4 * (k : ℝ) + 1) ≠ 0 := by
        intro hz
        apply hkr
        push_cast
        linarith
      field_simp
      linear_combination (-4 : ℝ) * hk
    exact mul_ne_zero (mul_ne_zero two_ne_zero hsin652) hcos
  exact mul_ne_zero (mul_ne_zero hdiffne hs4)
    (show (6 / 125 : ℝ) ≠ 0 by norm_num) hkey

end BrowserTTS
